import Mathlib

/-!
Verification of the query optimizer in `Query/Optimizer.py` (class `Optimizer`).

The plan tree is embedded as an arena of operator nodes addressed by stable
indices (`Plan.nodes` with child pointers as indices into that list), so the
in-place pointer mutation performed by the Python rewrite passes
(`removeUnaryPlan`, `pushdownOperators`) is modelled exactly, including the
aliasing behaviour of splicing a node out while other queue entries still
reference it.  Worklist loops carry an explicit fuel argument: on tree-shaped
plans each node is pushed at most once, so `nodes.length + 1` iterations always
suffice; exhausting the fuel is reported as an error, mirroring a traversal
that cannot finish.  Python exceptions (`AttributeError` on a missing child,
`KeyError` on a missing dictionary key, `TypeError` when iterating `None`) are
modelled with `Except String`.  The externally supplied collaborators
(`ExpressionInfo`, the catalog schema and the cost oracle, none of which are
part of this repository's sources) are parameters.
-/

namespace Optimizer

/-- Comparison of two character lists by code point, the order Python's
`sorted` uses on strings. -/
def charsLe : List Char → List Char → Bool
  | [], _ => true
  | _ :: _, [] => false
  | a :: as, b :: bs =>
    if a.toNat < b.toNat then true
    else if a.toNat = b.toNat then charsLe as bs
    else false

/-- String comparison by code point. -/
def strLe (a b : String) : Bool := charsLe a.data b.data

/-- Insertion of a string into an ascending list, keeping it ascending. -/
def insertSorted (s : String) : List String → List String
  | [] => [s]
  | t :: ts => if strLe s t then s :: t :: ts else t :: insertSorted s ts

/-- Ascending sort of a list of strings, as Python's `sorted`. -/
def pysorted (l : List String) : List String := l.foldr insertSorted []

/-- Dictionary insert with overwrite, as Python's `d[k] = v`. -/
def dictInsert {α β : Type} [DecidableEq α] : List (α × β) → α → β → List (α × β)
  | [], k, v => [(k, v)]
  | (k', v') :: rest, k, v =>
    if k = k' then (k, v) :: rest else (k', v') :: dictInsert rest k v

/-- Dictionary lookup, as Python's `d[k]` / `k in d`. -/
def dictLookup {α β : Type} [DecidableEq α] : List (α × β) → α → Option β
  | [], _ => none
  | (k', v) :: rest, k => if k = k' then some v else dictLookup rest k

/-- Dictionary update appending one value to the list stored under a key,
creating the entry when absent: the
`if k not in d: d[k] = []` followed by `d[k].append(v)` pattern. -/
def dictAppendEntry {α β : Type} [DecidableEq α] :
    List (α × List β) → α → β → List (α × List β)
  | [], k, v => [(k, [v])]
  | (k', vs) :: rest, k, v =>
    if k = k' then (k', vs ++ [v]) :: rest else (k', vs) :: dictAppendEntry rest k v

/-- Combinations of `n` elements of a list, preserving their relative order:
the enumeration of `itertools.combinations(l, n)`. -/
def combinations {α : Type} : Nat → List α → List (List α)
  | 0, _ => [[]]
  | _ + 1, [] => []
  | n + 1, x :: xs => (combinations n xs).map (x :: ·) ++ combinations (n + 1) xs

/-- Cartesian product of two lists in the order of `itertools.product`
(second component varying fastest). -/
def pairProduct {α β : Type} (xs : List α) (ys : List β) : List (α × β) :=
  xs.flatMap (fun a => ys.map (fun b => (a, b)))

/-- Operator node of a plan, one variant per operator kind the optimizer
distinguishes (`operatorType` dispatch).  Child links are arena indices. -/
inductive Op where
  | tableScan (relationId : String) (fields : List String)
  | select (subPlan : Nat) (selectExpr : String)
  | project (subPlan : Nat)
  | groupBy (subPlan : Nat)
  | sort (subPlan : Nat)
  | join (lhsPlan rhsPlan : Nat) (joinExpr : String) (method : String)
  | union (lhsPlan rhsPlan : Nat)
deriving DecidableEq, Repr

/-- Children of an operator in left-to-right order, as `Operator.inputs()`. -/
def Op.inputs : Op → List Nat
  | .tableScan _ _ => []
  | .select sp _ => [sp]
  | .project sp => [sp]
  | .groupBy sp => [sp]
  | .sort sp => [sp]
  | .join l r _ _ => [l, r]
  | .union l r => [l, r]

/-- Whether the operator is a `Select` node. -/
def Op.isSelect : Op → Bool
  | .select _ _ => true
  | _ => false

/-- Read of the `subPlan` attribute of a unary operator. -/
def Op.subPlanOf : Op → Option Nat
  | .select sp _ => some sp
  | .project sp => some sp
  | .groupBy sp => some sp
  | .sort sp => some sp
  | _ => none

/-- Read of the `lhsPlan` attribute of a binary operator. -/
def Op.lhsPlanOf : Op → Option Nat
  | .join l _ _ _ => some l
  | .union l _ => some l
  | _ => none

/-- Read of the `rhsPlan` attribute of a binary operator. -/
def Op.rhsPlanOf : Op → Option Nat
  | .join _ r _ _ => some r
  | .union _ r => some r
  | _ => none

/-- Assignment `node.subPlan = c` on a unary operator. -/
def Op.setSubPlan : Op → Nat → Option Op
  | .select _ e, c => some (.select c e)
  | .project _, c => some (.project c)
  | .groupBy _, c => some (.groupBy c)
  | .sort _, c => some (.sort c)
  | _, _ => none

/-- Assignment `node.lhsPlan = c` on a binary operator. -/
def Op.setLhsPlan : Op → Nat → Option Op
  | .join _ r e m, c => some (.join c r e m)
  | .union _ r, c => some (.union c r)
  | _, _ => none

/-- Assignment `node.rhsPlan = c` on a binary operator. -/
def Op.setRhsPlan : Op → Nat → Option Op
  | .join l _ e m, c => some (.join l c e m)
  | .union l _, c => some (.union l c)
  | _, _ => none

/-- Plan value: the operator arena with the root index.  `relations` is the
plan's relation set.  Modelled from the spec: `Plan` itself lives in
`Query/Plan.py`, which is not among the sources; §3 of the spec describes a
plan as "a single-rooted tree of operator nodes plus a cached derived fact:
the set of base-relation identifiers reachable from the root", so the
relation set is carried as a field, filled by the plan builder. -/
structure Plan where
  nodes : List Op
  root : Nat
  relations : List String
deriving DecidableEq, Repr

/-- Expression-analysis collaborator.  Modelled from the spec:
`Utils/ExpressionInfo.py` is not among the sources; §6 of the spec gives its
interface as `decomposeConjunction(expr) -> list<expr>` (splitting only on
top-level conjunction) and `referencedAttributes(expr) -> set<attributeName>`,
matching the `decomposeCNF` and `getAttributes` methods the optimizer calls. -/
structure ExprAnalysis where
  decomposeCNF : String → List String
  getAttributes : String → List String

/-- Attach-point dictionary built by `removeUnaryPlan`: field name to
(parent node, slot tag). -/
abbrev FieldDict := List (String × (Option Nat × String))

/-- Splice of a child index into the slot of a parent that the tag `sub`
names, or into the plan root when the tag is neither "only", "left" nor
"right" (the `else: plan.root = currNode.subPlan` branch). -/
def spliceParent (nodes : List Op) (pNode : Option Nat) (sub : String) (c : Nat)
    (root : Nat) : Except String (List Op × Nat) :=
  if sub = "only" ∨ sub = "left" ∨ sub = "right" then
    match pNode with
    | none => .error "AttributeError: parent is None"
    | some pIdx =>
      match nodes[pIdx]? with
      | none => .error "AttributeError: operator missing"
      | some pOp =>
        let pOp' := if sub = "only" then pOp.setSubPlan c
                    else if sub = "left" then pOp.setLhsPlan c
                    else pOp.setRhsPlan c
        match pOp' with
        | some newOp => .ok (nodes.set pIdx newOp, root)
        | none => .error "AttributeError: slot not present"
  else
    .ok (nodes, c)

/-- Worklist loop of `removeUnaryPlan` (Query/Optimizer.py lines 87-112).
Each worklist entry is `(currNode, pNode, sub)`; the list head is the top of
the Python stack (`q.pop()` pops the most recently appended entry, so
appending `left` then `right` makes `right` the next entry popped). -/
def removeUnaryPlanAux :
    Nat → List Op → Nat → List (Nat × Option Nat × String) →
    List String → FieldDict → Except String (List Op × Nat × List String × FieldDict)
  | 0, _, _, _, _, _ => .error "RecursionError: traversal did not finish"
  | _ + 1, nodes, root, [], selectList, fieldDict => .ok (nodes, root, selectList, fieldDict)
  | fuel + 1, nodes, root, (curr, pNode, sub) :: q, selectList, fieldDict =>
    match nodes[curr]? with
    | none => .error "AttributeError: operator missing"
    | some (.select sp e) =>
      match spliceParent nodes pNode sub sp root with
      | .error err => .error err
      | .ok (nodes', root') =>
        removeUnaryPlanAux fuel nodes' root' ((sp, some curr, "only") :: q)
          (selectList ++ [e]) fieldDict
    | some (.project _) =>
      removeUnaryPlanAux fuel nodes root q selectList fieldDict
    | some (.tableScan _ fields) =>
      removeUnaryPlanAux fuel nodes root q selectList
        (fields.foldl (fun d f => dictInsert d f (pNode, sub)) fieldDict)
    | some (.groupBy sp) =>
      removeUnaryPlanAux fuel nodes root ((sp, some curr, "only") :: q) selectList fieldDict
    | some (.sort sp) =>
      removeUnaryPlanAux fuel nodes root ((sp, some curr, "only") :: q) selectList fieldDict
    | some (.join l r _ _) =>
      removeUnaryPlanAux fuel nodes root
        ((r, some curr, "right") :: (l, some curr, "left") :: q) selectList fieldDict
    | some (.union l r) =>
      removeUnaryPlanAux fuel nodes root
        ((r, some curr, "right") :: (l, some curr, "left") :: q) selectList fieldDict

/-- Embeds `removeUnaryPlan` (Query/Optimizer.py lines 81-113): strips
`Select` nodes in a single traversal, returning the rewritten plan, the
predicate expressions of the removed `Select` nodes in visit order, and the
field-to-attach-point dictionary.  The removed `Select` objects survive only
through their predicate strings, which is all later phases read from them. -/
def removeUnaryPlan (plan : Plan) : Except String (Plan × List String × FieldDict) :=
  match removeUnaryPlanAux (plan.nodes.length + 1) plan.nodes plan.root
      [(plan.root, none, "")] [] [] with
  | .error err => .error err
  | .ok (nodes, root, selectList, fieldDict) =>
    .ok ({ plan with nodes := nodes, root := root }, selectList, fieldDict)

/-- Embeds `decompSelects` (Query/Optimizer.py lines 115-123).  The `return`
statement sits inside the `for` loop, so the function returns during the
first iteration, yielding only the first `Select`'s conjuncts; on an empty
list the loop body never runs and the function falls through, returning
`None` (here `none`).  The `Select(None, e)` objects it builds are
represented by their predicate strings; `pushdownOperators` allocates the
actual nodes when it wires them into the arena. -/
def decompSelects (ea : ExprAnalysis) (selectList : List String) : Option (List String) :=
  match selectList with
  | [] => none
  | s :: _ => some (ea.decomposeCNF s)

/-- Allocation of a new `Select` above the current root:
`s.subPlan = removedPlan.root; removedPlan.root = s`. -/
def attachAtRoot (p : Plan) (e : String) : Plan :=
  { p with nodes := p.nodes ++ [Op.select p.root e], root := p.nodes.length }

/-- Allocation of a new `Select` in the parent slot named by `sub`:
`s.subPlan = pNode.<slot>; pNode.<slot> = s`. -/
def attachAtSlot (p : Plan) (pIdx : Nat) (sub : String) (e : String) :
    Except String Plan :=
  match p.nodes[pIdx]? with
  | none => .error "AttributeError: operator missing"
  | some pOp =>
    let oldChild? := if sub = "only" then pOp.subPlanOf
                     else if sub = "left" then pOp.lhsPlanOf
                     else pOp.rhsPlanOf
    match oldChild? with
    | none => .error "AttributeError: slot not present"
    | some oldChild =>
      let newIdx := p.nodes.length
      let pOp' := if sub = "only" then pOp.setSubPlan newIdx
                  else if sub = "left" then pOp.setLhsPlan newIdx
                  else pOp.setRhsPlan newIdx
      match pOp' with
      | some newOp =>
        .ok { p with nodes := (p.nodes ++ [Op.select oldChild e]).set pIdx newOp }
      | none => .error "AttributeError: slot not present"

/-- Placement loop of `pushdownOperators` (Query/Optimizer.py lines 132-152):
a predicate whose attribute list has exactly one element (`len(attrList) == 1`,
an attribute count, not a relation count) is attached at the recorded attach
point of that attribute; every other predicate is attached above the root. -/
def placeLoop (ea : ExprAnalysis) (fieldDict : FieldDict) :
    List String → Plan → Except String Plan
  | [], p => .ok p
  | e :: rest, p =>
    match ea.getAttributes e with
    | [a] =>
      match dictLookup fieldDict a with
      | none => .error "KeyError: attribute has no attach point"
      | some (pNode, sub) =>
        if sub = "only" ∨ sub = "left" ∨ sub = "right" then
          match pNode with
          | none => .error "AttributeError: parent is None"
          | some pIdx =>
            match attachAtSlot p pIdx sub e with
            | .error err => .error err
            | .ok p' => placeLoop ea fieldDict rest p'
        else
          placeLoop ea fieldDict rest (attachAtRoot p e)
    | _ => placeLoop ea fieldDict rest (attachAtRoot p e)

/-- Embeds `pushdownOperators` (Query/Optimizer.py lines 128-154): strip the
`Select` nodes, decompose their predicates, then re-insert each decomposed
predicate.  When `decompSelects` returns `None`, the `for s in decompList`
loop raises (`TypeError`), modelled as an error result. -/
def pushdownOperators (ea : ExprAnalysis) (plan : Plan) : Except String Plan :=
  match removeUnaryPlan plan with
  | .error err => .error err
  | .ok (removedPlan, selectList, fieldDict) =>
    match decompSelects ea selectList with
    | none => .error "TypeError: NoneType object is not iterable"
    | some decompList => placeLoop ea fieldDict decompList removedPlan

/-- Attribute-to-relation dictionary built by `obtainFieldDict`. -/
abbrev AttrDict := List (String × String)

/-- Dictionaries from a sorted tuple of relation identifiers to the
expression strings filed under it. -/
abbrev ExprDict := List (List String × List String)

/-- Push of every input of an operator onto the stack, most recently appended
on top: the `for i in currNode.inputs(): q.append(i)` loop. -/
def pushInputs (op : Op) (q : List Nat) : List Nat :=
  op.inputs.foldl (fun qq i => i :: qq) q

/-- Worklist loop of `obtainFieldDict` (Query/Optimizer.py lines 156-172). -/
def obtainFieldDictAux :
    Nat → List Op → List Nat → AttrDict → Except String AttrDict
  | 0, _, _, _ => .error "RecursionError: traversal did not finish"
  | _ + 1, _, [], attrDict => .ok attrDict
  | fuel + 1, nodes, curr :: q, attrDict =>
    match nodes[curr]? with
    | none => .error "AttributeError: operator missing"
    | some op =>
      let attrDict' := match op with
        | .tableScan r fields => fields.foldl (fun d f => dictInsert d f r) attrDict
        | _ => attrDict
      obtainFieldDictAux fuel nodes (pushInputs op q) attrDict'

/-- Embeds `obtainFieldDict` (Query/Optimizer.py lines 156-172): one
traversal mapping every scanned field name to its relation identifier. -/
def obtainFieldDict (plan : Plan) : Except String AttrDict :=
  obtainFieldDictAux (plan.nodes.length + 1) plan.nodes [plan.root] []

/-- Relation identifiers referenced by the attributes of one expression,
first occurrence kept, duplicates skipped
(`if source not in sourceList: sourceList.append(source)`); an attribute
missing from the dictionary raises `KeyError`. -/
def attrSources (ea : ExprAnalysis) (fieldDict : AttrDict) (e : String) :
    Except String (List String) :=
  (ea.getAttributes e).foldlM
    (fun srcs attr =>
      match dictLookup fieldDict attr with
      | none => .error "KeyError: attribute not attributed"
      | some src => .ok (if src ∈ srcs then srcs else srcs ++ [src]))
    []

/-- Worklist loop of `getExprDicts` (Query/Optimizer.py lines 182-218).  A
`Select` node files its whole predicate under the sorted tuple of the
relations its attributes span; a `Join` node CNF-decomposes its join
expression, computes each conjunct's relation tuple, and under that key files
`currNode.joinExpr` — the join node's whole, undecomposed expression, not the
conjunct (line 211). -/
def getExprDictsAux (ea : ExprAnalysis) (fieldDict : AttrDict) :
    Nat → List Op → List Nat → ExprDict → ExprDict →
    Except String (ExprDict × ExprDict)
  | 0, _, _, _, _ => .error "RecursionError: traversal did not finish"
  | _ + 1, _, [], joinTablesDict, selectTablesDict => .ok (joinTablesDict, selectTablesDict)
  | fuel + 1, nodes, curr :: q, joinTablesDict, selectTablesDict =>
    match nodes[curr]? with
    | none => .error "AttributeError: operator missing"
    | some op =>
      let dicts? : Except String (ExprDict × ExprDict) :=
        match op with
        | .select _ e =>
          match attrSources ea fieldDict e with
          | .error err => .error err
          | .ok sourceList =>
            .ok (joinTablesDict, dictAppendEntry selectTablesDict (pysorted sourceList) e)
        | .join _ _ joinExpr _ =>
          match (ea.decomposeCNF joinExpr).foldlM
              (fun (jd : ExprDict) (conj : String) =>
                match attrSources ea fieldDict conj with
                | .error err => (.error err : Except String ExprDict)
                | .ok sourceList => .ok (dictAppendEntry jd (pysorted sourceList) joinExpr))
              joinTablesDict with
          | .error err => .error err
          | .ok jd => .ok (jd, selectTablesDict)
        | _ => .ok (joinTablesDict, selectTablesDict)
      match dicts? with
      | .error err => .error err
      | .ok (jd, sd) =>
        let q' := match op.inputs with
          | [l, r] => r :: l :: q
          | [s] => s :: q
          | _ => q
        getExprDictsAux ea fieldDict fuel nodes q' jd sd

/-- Embeds `getExprDicts` (Query/Optimizer.py lines 174-221), returning the
pair `(joinTablesDict, selectTablesDict)`. -/
def getExprDicts (ea : ExprAnalysis) (plan : Plan) (fieldDict : AttrDict) :
    Except String (ExprDict × ExprDict) :=
  getExprDictsAux ea fieldDict (plan.nodes.length + 1) plan.nodes [plan.root] [] []

/-- Non-empty combinations of a list in the enumeration order of
`for i in range(1, len(l) + 1): temp.extend(itertools.combinations(l, i))`. -/
def nonemptyCombos (l : List String) : List (List String) :=
  (List.range' 1 l.length).flatMap (fun i => combinations i l)

/-- Pairs `(index into lcombos, rcombo)` in the order `itertools.product`
yields them; the product holds references to the combination lists, so the
index stands for the shared list object that the loop body mutates. -/
def plistIdx (nl : Nat) (rcombos : List (List String)) : List (Nat × List String) :=
  (List.range nl).flatMap (fun i => rcombos.map (fun r => (i, r)))

/-- One iteration of the `for elem in plist` loop of `createExpression`
(Query/Optimizer.py lines 303-307): `item1.extend(item2)` mutates the
combination list shared through `plist`, then the sorted copy is appended to
`masterlist`.  The state is the arena of combination lists plus the
accumulated `masterlist`. -/
def masterlistStep (st : List (List String) × List (List String))
    (p : Nat × List String) : List (List String) × List (List String) :=
  let cur := st.1.getD p.1 []
  let cur' := cur ++ p.2
  (st.1.set p.1 cur', st.2 ++ [pysorted cur'])

/-- The `masterlist` built by `createExpression` (lines 283-307). -/
def masterlistOf (lList rList : List String) : List (List String) :=
  let lcombos := nonemptyCombos lList
  let rcombos := nonemptyCombos rList
  ((plistIdx lcombos.length rcombos).foldl masterlistStep (lcombos, [])).2

/-- Embeds `createExpression` (Query/Optimizer.py lines 278-328): collect the
expression strings filed under every `masterlist` key present in `exprDict`,
joined with `" and "`; the literal `"True"` when nothing was collected.  The
accumulated string is empty or ends in `" and "` (five characters), so the
Python slice `exprString[:len(exprString) - 5]` is `dropRight 5`. -/
def createExpression (lList rList : List String) (exprDict : ExprDict) : String :=
  let masterlist := masterlistOf lList rList
  let exprString := masterlist.foldl
    (fun acc c =>
      match dictLookup exprDict c with
      | some es => es.foldl (fun a s => a ++ s ++ " and ") acc
      | none => acc)
    ""
  if exprString = "" then "True"
  else exprString.dropRight 5

/-- Embeds `combineSelects` (Query/Optimizer.py lines 330-338).  Its only
call site, line 243, invokes it by bare name instead of through `self.`, and
a Python method body does not see sibling methods by bare name, so this
function is never actually reached: the call raises `NameError` first (see
`seedPass1`). -/
def combineSelects (selectExprs : List String) : String :=
  let selectString := selectExprs.foldl (fun acc s => acc ++ s ++ " and ") ""
  selectString.dropRight 5

/-- Expression strings found in the dictionary under the given keys, in key
order, concatenated. -/
def flatMapEntries (keys : List (List String)) (exprDict : ExprDict) : List String :=
  keys.flatMap (fun c => (dictLookup exprDict c).getD [])

/-- Rendering of a list of predicate strings as one conjunction, with the
cross-product fallback: the accumulation-and-strip pattern shared by
`createExpression`. -/
def renderConj (es : List String) : String :=
  let s := es.foldl (fun acc x => acc ++ x ++ " and ") ""
  if s = "" then "True" else s.dropRight 5

/-- Relation-set keys described by the spec for a candidate join: "formed by
pairing any non-empty sub-combination of `S \ {rel}` with any non-empty
sub-combination of `{rel}`", each pair's union sorted into the canonical
tuple. -/
def specNewlyCoveredKeys (lList rList : List String) : List (List String) :=
  (pairProduct (nonemptyCombos lList) (nonemptyCombos rList)).map
    (fun pr => pysorted (pr.1 ++ pr.2))

/-- Definition following the claim's words, for comparison with the code:
every atomic predicate — each individual CNF conjunct of a `Select` predicate
or of a `Join` expression — keyed by the sorted tuple of the relations its
attributes span, all in one dictionary. -/
def atomicPredDictAux (ea : ExprAnalysis) (fieldDict : AttrDict) :
    Nat → List Op → List Nat → ExprDict → Except String ExprDict
  | 0, _, _, _ => .error "RecursionError: traversal did not finish"
  | _ + 1, _, [], atomDict => .ok atomDict
  | fuel + 1, nodes, curr :: q, atomDict =>
    match nodes[curr]? with
    | none => .error "AttributeError: operator missing"
    | some op =>
      let expr? : Option String := match op with
        | .select _ e => some e
        | .join _ _ joinExpr _ => some joinExpr
        | _ => none
      let atomDict? : Except String ExprDict :=
        match expr? with
        | none => .ok atomDict
        | some e =>
          (ea.decomposeCNF e).foldlM
            (fun (d : ExprDict) (conj : String) =>
              match attrSources ea fieldDict conj with
              | .error err => (.error err : Except String ExprDict)
              | .ok sourceList => .ok (dictAppendEntry d (pysorted sourceList) conj))
            atomDict
      match atomDict? with
      | .error err => .error err
      | .ok d =>
        let q' := match op.inputs with
          | [l, r] => r :: l :: q
          | [s] => s :: q
          | _ => q
        atomicPredDictAux ea fieldDict fuel nodes q' d

/-- Dictionary of atomic predicates of a whole plan, as the claim reads the
spec (selection and join predicates, each decomposed to conjuncts). -/
def atomicPredDict (ea : ExprAnalysis) (plan : Plan) (fieldDict : AttrDict) :
    Except String ExprDict :=
  atomicPredDictAux ea fieldDict (plan.nodes.length + 1) plan.nodes [plan.root] []

/-- Candidate join expression as the claim describes it: the conjunction of
exactly the atomic predicates (join or select conjuncts) filed under a
newly-covered relation-set key. -/
def claimedCandidateExpr (ea : ExprAnalysis) (plan : Plan) (fieldDict : AttrDict)
    (lList rList : List String) : Except String String :=
  match atomicPredDict ea plan fieldDict with
  | .error err => .error err
  | .ok atomDict =>
    .ok (renderConj (flatMapEntries (specNewlyCoveredKeys lList rList) atomDict))

/-- Optimized sub-plan built by the dynamic program.  The `Plan` objects that
`pickJoinOrder` wraps around freshly built `TableScan`, `Select` and `Join`
operators are never mutated afterwards, so they are represented as a pure
tree; `prepare` and `sample` only ready the cost oracle (an external
collaborator), whose answer is the `cost` parameter below. -/
inductive PTree where
  | tableScan (relationId : String) (fields : List String)
  | select (sub : PTree) (selectExpr : String)
  | join (lhs rhs : PTree) (joinExpr : String) (method : String)
deriving DecidableEq, Repr

/-- Memo dictionary `optDict`, keyed by the sorted relation tuple.  A value
is whatever `bestJoin` holds when stored, hence an `Option`. -/
abbrev OptDict := List (List String × Option PTree)

/-- Pass 1 of the dynamic program (Query/Optimizer.py lines 238-247): each
single relation is seeded with its scan.  When predicates are filed under
`(r,)`, line 243 invokes `combineSelects(selectExprs)` without the `self.`
receiver; the bare name is not in scope inside a method body, so Python
raises `NameError` there before any `Select` is built.  Only a relation
without select predicates is seeded (with its bare scan). -/
def seedPass1 (schema : String → List String) (selectTablesDict : ExprDict)
    (relations : List String) (optDict : OptDict) : Except String OptDict :=
  relations.foldlM
    (fun (od : OptDict) r =>
      let table := PTree.tableScan r (schema r)
      match dictLookup selectTablesDict [r] with
      | some _ =>
        (.error "NameError: name 'combineSelects' is not defined" :
          Except String OptDict)
      | none => .ok (dictInsert od [r] (some table)))
    optDict

/-- Candidate pair for one `(S, rel)` split (Query/Optimizer.py lines
254-265): the memoized sub-plans for `S \ {rel}` and `{rel}` joined with the
expression from `createExpression`, once per join method.  `none` when a memo
entry is missing (`KeyError`) or holds `None` (`AttributeError` on `.root`). -/
def splitCandidates (optDict : OptDict) (joinTablesDict : ExprDict)
    (clist : List String) (rel : String) : Option (PTree × PTree) :=
  let temp := clist.erase rel
  match dictLookup optDict temp, dictLookup optDict [rel] with
  | some (some leftOps), some (some rightOps) =>
    let joinExpr := createExpression temp [rel] joinTablesDict
    some (PTree.join leftOps rightOps joinExpr "block-nested-loops",
          PTree.join leftOps rightOps joinExpr "nested-loops")
  | _, _ => none

/-- Cost comparison of the two method variants and the running best
(Query/Optimizer.py lines 267-272), kept in the source's nested-`if` shape. -/
def updateBest (cost : PTree → Nat) (joinBnlj joinNlj : PTree)
    (bestJoin : Option PTree) : Option PTree :=
  if cost joinBnlj < cost joinNlj then
    match bestJoin with
    | none => some joinBnlj
    | some b => if cost joinBnlj < cost b then some joinBnlj else some b
  else
    match bestJoin with
    | none => some joinNlj
    | some b => if cost joinNlj < cost b then some joinNlj else some b

/-- The `for rel in clist` loop for one subset (lines 253-272). -/
def processSubsetGo (cost : PTree → Nat) (optDict : OptDict)
    (joinTablesDict : ExprDict) (clist : List String) :
    List String → Option PTree → Except String (Option PTree)
  | [], bestJoin => .ok bestJoin
  | rel :: rest, bestJoin =>
    match splitCandidates optDict joinTablesDict clist rel with
    | some (joinBnlj, joinNlj) =>
      processSubsetGo cost optDict joinTablesDict clist rest
        (updateBest cost joinBnlj joinNlj bestJoin)
    | none => .error "KeyError: memo entry missing"

/-- Best candidate over all splits of one subset, starting from
`bestJoin = None`. -/
def processSubset (cost : PTree → Nat) (optDict : OptDict)
    (joinTablesDict : ExprDict) (clist : List String) :
    Except String (Option PTree) :=
  processSubsetGo cost optDict joinTablesDict clist clist none

/-- Embeds the memo-building part of `pickJoinOrder` (Query/Optimizer.py
lines 227-273): the pre-traversals, then passes `npass = 1 .. len(relations)`
populating `optDict`. -/
def pickJoinOrderDict (ea : ExprAnalysis) (schema : String → List String)
    (cost : PTree → Nat) (plan : Plan) : Except String OptDict :=
  match obtainFieldDict plan with
  | .error err => .error err
  | .ok fieldDict =>
    match getExprDicts ea plan fieldDict with
    | .error err => .error err
    | .ok (joinTablesDict, selectTablesDict) =>
      (List.range' 1 plan.relations.length).foldlM
        (fun (od : OptDict) npass =>
          if npass = 1 then
            seedPass1 schema selectTablesDict plan.relations od
          else
            (combinations npass plan.relations).foldlM
              (fun (od2 : OptDict) c =>
                let clist := pysorted c
                match processSubset cost od2 joinTablesDict clist with
                | .error err => (.error err : Except String OptDict)
                | .ok bestJoin => .ok (dictInsert od2 clist bestJoin))
              od)
        []

/-- Embeds `pickJoinOrder` (Query/Optimizer.py lines 227-276).  The Python
function body ends after the pass loop with no `return` statement, so after
the memo is fully built the caller receives `None`; an exception raised while
building propagates. -/
def pickJoinOrder (ea : ExprAnalysis) (schema : String → List String)
    (cost : PTree → Nat) (plan : Plan) : Except String (Option PTree) :=
  match pickJoinOrderDict ea schema cost plan with
  | .error err => .error err
  | .ok _ => .ok none

/-- Expression analysis fixture for the single-relation scenario: the one
filter `a > 0` over relation `R`. -/
def eaD : ExprAnalysis :=
  { decomposeCNF := fun s => if s = "a > 0" then ["a > 0"] else [s],
    getAttributes := fun s => if s = "a > 0" then ["a"] else [] }

/-- Catalog fixture: relation `R` has fields `a`, `b`. -/
def schemaD : String → List String := fun r => if r = "R" then ["a", "b"] else []

/-- Cost oracle fixture assigning every candidate the same cost. -/
def costZero : PTree → Nat := fun _ => 0

/-- Scenario-D plan: one filter above one scan. -/
def planD : Plan :=
  { nodes := [.select 1 "a > 0", .tableScan "R" ["a", "b"]], root := 0,
    relations := ["R"] }

/-- Expression analysis fixture for the two-relation join plan `planC2`. -/
def eaC2 : ExprAnalysis :=
  { decomposeCNF := fun s =>
      if s = "a1 == b1 and a2 == b1" then ["a1 == b1", "a2 == b1"] else [s],
    getAttributes := fun s =>
      if s = "a1 == b1" then ["a1", "b1"]
      else if s = "a2 == b1" then ["a2", "b1"]
      else [] }

/-- Two relations `A(a1, a2)` and `B(b1)` joined on the two-conjunct
expression `a1 == b1 and a2 == b1`, with a select `a1 == b1` on top. -/
def planC2 : Plan :=
  { nodes := [.select 1 "a1 == b1",
              .join 2 3 "a1 == b1 and a2 == b1" "block-nested-loops",
              .tableScan "A" ["a1", "a2"], .tableScan "B" ["b1"]],
    root := 0, relations := ["A", "B"] }

/-- Expression analysis fixture: `a < b` is one conjunct referencing the two
attributes `a` and `b`, both of relation `T`. -/
def eaC3 : ExprAnalysis :=
  { decomposeCNF := fun s => [s],
    getAttributes := fun s => if s = "a < b" then ["a", "b"] else [] }

/-- A grouping over a filter over the scan of `T(a, b, c)`: the filter's two
attributes both belong to the single relation `T`. -/
def planC3 : Plan :=
  { nodes := [.groupBy 1, .select 2 "a < b", .tableScan "T" ["a", "b", "c"]],
    root := 0, relations := ["T"] }

/-- Expression analysis fixture decomposing `a > 0 and b > 0` into its two
conjuncts. -/
def eaC4 : ExprAnalysis :=
  { decomposeCNF := fun s =>
      if s = "a > 0 and b > 0" then ["a > 0", "b > 0"] else [s],
    getAttributes := fun _ => [] }

/-- A chain of two consecutive `Select` nodes above a scan, the outer one the
plan root. -/
def planC5 : Plan :=
  { nodes := [.select 1 "p", .select 2 "q", .tableScan "R" ["a"]], root := 0,
    relations := ["R"] }

/-- A `Project` directly above the scan of `R`. -/
def planC6 : Plan :=
  { nodes := [.project 1, .tableScan "R" ["a"]], root := 0, relations := ["R"] }

/-- Identity-ish expression analysis fixture for plans whose predicates are
never decomposed. -/
def eaId : ExprAnalysis :=
  { decomposeCNF := fun s => [s], getAttributes := fun _ => [] }

/-- A structurally valid plan handed to `pickJoinOrder` with an empty
relation set. -/
def planC7 : Plan :=
  { nodes := [.tableScan "R" ["a"]], root := 0, relations := [] }

/-- A plan containing no `Select` node at all. -/
def planC10 : Plan :=
  { nodes := [.tableScan "R" ["a"]], root := 0, relations := ["R"] }

/-- Cost oracle fixture distinguishing the join methods: block-nested-loops
joins are cheaper. -/
def costW : PTree → Nat
  | .tableScan _ _ => 1
  | .select t _ => costW t + 1
  | .join l r _ m => costW l + costW r + (if m = "block-nested-loops" then 2 else 7)

/-- Memo fixture holding the two single-relation scans. -/
def odW : OptDict :=
  [(["A"], some (.tableScan "A" ["x"])), (["B"], some (.tableScan "B" ["y"]))]

/-- Attribute dictionary that `obtainFieldDict` yields for `planC2`. -/
def fdC2 : AttrDict := [("b1", "B"), ("a1", "A"), ("a2", "A")]

/-- Join-predicate dictionary that `getExprDicts` yields for `planC2`: both
conjuncts of the join expression file the whole expression under the key. -/
def jtdC2 : ExprDict :=
  [(["A", "B"], ["a1 == b1 and a2 == b1", "a1 == b1 and a2 == b1"])]

/-- Select-predicate dictionary that `getExprDicts` yields for `planC2`. -/
def stdC2 : ExprDict := [(["A", "B"], ["a1 == b1"])]

/-- Plan that `removeUnaryPlan` returns for `planC5`: the root slot holds the
inner `Select` node, still wired above the scan. -/
def planC5after : Plan :=
  { nodes := [.select 2 "p", .select 2 "q", .tableScan "R" ["a"]], root := 1,
    relations := ["R"] }

/-- Plan that `pushdownOperators` returns for `planC3`: a freshly allocated
`Select` above the old root (the grouping), the scan left bare. -/
def planC3after : Plan :=
  { nodes := [.groupBy 2, .select 2 "a < b", .tableScan "T" ["a", "b", "c"],
              .select 0 "a < b"],
    root := 3, relations := ["T"] }

/-- Attribute dictionary for `planC3`: all three fields belong to `T`. -/
def fdC3 : AttrDict := [("a", "T"), ("b", "T"), ("c", "T")]

/-- Block-nested-loops candidate for the split `(["A", "B"], "A")` of `odW`. -/
def jW_bnlj : PTree :=
  .join (.tableScan "B" ["y"]) (.tableScan "A" ["x"]) "True" "block-nested-loops"

/-- Nested-loops candidate for the split `(["A", "B"], "A")` of `odW`. -/
def jW_nlj : PTree :=
  .join (.tableScan "B" ["y"]) (.tableScan "A" ["x"]) "True" "nested-loops"

/-- Attribute dictionary that `obtainFieldDict` yields for `planC7`. -/
def fdC7 : AttrDict := [("a", "R")]

/-- The expression-collecting fold of `createExpression` equals a plain fold
over the entries found under the keys, in key order. -/
theorem foldl_exprString_eq (d : ExprDict) (ml : List (List String)) :
    ∀ acc : String,
      ml.foldl
        (fun acc c =>
          match dictLookup d c with
          | some es => es.foldl (fun a s => a ++ s ++ " and ") acc
          | none => acc)
        acc =
      (flatMapEntries ml d).foldl (fun a s => a ++ s ++ " and ") acc := by
  induction ml with
  | nil => intro acc; rfl
  | cons c rest ih =>
    intro acc
    simp only [List.foldl_cons, flatMapEntries, List.flatMap_cons, List.foldl_append]
    cases h : dictLookup d c with
    | none =>
      simp only [h, Option.getD_none, List.foldl_nil]
      simpa [flatMapEntries] using ih acc
    | some es =>
      simp only [h, Option.getD_some]
      simpa [flatMapEntries] using ih (es.foldl (fun a s => a ++ s ++ " and ") acc)

/-- The string `createExpression` builds is the rendered conjunction of the
dictionary entries found under its `masterlist` keys. -/
theorem createExpression_renderConj (lList rList : List String) (d : ExprDict) :
    createExpression lList rList d =
      renderConj (flatMapEntries (masterlistOf lList rList) d) := by
  simp only [createExpression, renderConj]
  rw [foldl_exprString_eq]

/-- A flat map producing singletons is a map. -/
theorem flatMap_singleton_map {α β : Type} (l : List α) (f : α → β) :
    l.flatMap (fun i => [f i]) = l.map f := by
  induction l with
  | nil => rfl
  | cons x xs ih => simp [ih]

/-- Reading a list at the length of a prefix yields the element after it. -/
theorem getD_length_append {α : Type} (l : List α) (a : α) (r : List α) (dflt : α) :
    (l ++ a :: r).getD l.length dflt = a := by
  induction l with
  | nil => rfl
  | cons x xs ih => simpa using ih

/-- Writing a list at the length of a prefix replaces the element after it. -/
theorem set_length_append {α : Type} (l : List α) (a b : α) (r : List α) :
    (l ++ a :: r).set l.length b = l ++ b :: r := by
  induction l with
  | nil => rfl
  | cons x xs ih => simp [ih]

/-- With a single right-hand combination, the `masterlist` fold touches each
left combination exactly once, in order. -/
theorem masterlistFold_singleton (r : List String) (todo : List (List String)) :
    ∀ (done : List (List String)) (acc : List (List String)),
      (((List.range' done.length todo.length).map (fun i => (i, r))).foldl
          masterlistStep (done ++ todo, acc)).2 =
        acc ++ todo.map (fun L => pysorted (L ++ r)) := by
  induction todo with
  | nil => intro done acc; simp
  | cons t ts ih =>
    intro done acc
    simp only [List.length_cons, List.range'_succ, List.map_cons, List.foldl_cons]
    have hstep :
        masterlistStep (done ++ t :: ts, acc) (done.length, r) =
          (done ++ (t ++ r) :: ts, acc ++ [pysorted (t ++ r)]) := by
      simp only [masterlistStep, getD_length_append, set_length_append]
    rw [hstep]
    have hdone : (done ++ [t ++ r]).length = done.length + 1 := by simp
    have := ih (done ++ [t ++ r]) (acc ++ [pysorted (t ++ r)])
    rw [hdone] at this
    simpa [List.append_assoc] using this

/-- The `masterlist` for a singleton right-hand list: each non-empty left
combination joined with the right relation and sorted, no aliasing effects
(the one-element `rcombos` pairs each left combination exactly once). -/
theorem masterlistOf_singleton (lList : List String) (rel : String) :
    masterlistOf lList [rel] =
      (nonemptyCombos lList).map (fun L => pysorted (L ++ [rel])) := by
  have hr : nonemptyCombos [rel] = [[rel]] := rfl
  have hplist :
      plistIdx (nonemptyCombos lList).length [[rel]] =
        (List.range' 0 (nonemptyCombos lList).length).map (fun i => (i, [rel])) := by
    simp only [plistIdx, List.range_eq_range']
    exact flatMap_singleton_map _ _
  simp only [masterlistOf, hr, hplist]
  have := masterlistFold_singleton [rel] (nonemptyCombos lList) [] []
  simpa using this

/-- The spec's key enumeration, specialized to a singleton right-hand side,
also lists each non-empty left combination joined with the right relation. -/
theorem specNewlyCoveredKeys_singleton (lList : List String) (rel : String) :
    specNewlyCoveredKeys lList [rel] =
      (nonemptyCombos lList).map (fun L => pysorted (L ++ [rel])) := by
  have hr : nonemptyCombos [rel] = [[rel]] := rfl
  simp only [specNewlyCoveredKeys, pairProduct, hr]
  rw [show (nonemptyCombos lList).flatMap (fun a => [[rel]].map (fun b => (a, b))) =
        (nonemptyCombos lList).map (fun a => (a, [rel])) from
      flatMap_singleton_map _ _]
  simp [Function.comp]

/-- The comparison step always yields a candidate. -/
theorem updateBest_isSome (cost : PTree → Nat) (bn nl : PTree) (b : Option PTree) :
    ∃ r, updateBest cost bn nl b = some r := by
  unfold updateBest
  by_cases h1 : cost bn < cost nl <;> cases b <;> simp [h1] <;> split <;> simp

/-- The comparison step never increases cost: the result costs at most the
cheaper method variant and at most the incoming best candidate. -/
theorem updateBest_le (cost : PTree → Nat) (bn nl : PTree) (b : Option PTree)
    (r : PTree) (h : updateBest cost bn nl b = some r) :
    cost r ≤ cost (if cost bn < cost nl then bn else nl) ∧
      ∀ b0, b = some b0 → cost r ≤ cost b0 := by
  unfold updateBest at h
  by_cases h1 : cost bn < cost nl
  · simp only [if_pos h1] at h ⊢
    cases b with
    | none =>
      injection h with hr
      subst hr
      exact ⟨le_refl _, fun b0 hb0 => by cases hb0⟩
    | some b0 =>
      dsimp only at h
      by_cases h2 : cost bn < cost b0
      · rw [if_pos h2] at h
        injection h with hr
        subst hr
        exact ⟨le_refl _, fun b1 hb1 => by cases hb1; omega⟩
      · rw [if_neg h2] at h
        injection h with hr
        subst hr
        exact ⟨by omega, fun b1 hb1 => by cases hb1; exact le_refl _⟩
  · simp only [if_neg h1] at h ⊢
    cases b with
    | none =>
      injection h with hr
      subst hr
      exact ⟨le_refl _, fun b0 hb0 => by cases hb0⟩
    | some b0 =>
      dsimp only at h
      by_cases h2 : cost nl < cost b0
      · rw [if_pos h2] at h
        injection h with hr
        subst hr
        exact ⟨le_refl _, fun b1 hb1 => by cases hb1; omega⟩
      · rw [if_neg h2] at h
        injection h with hr
        subst hr
        exact ⟨by omega, fun b1 hb1 => by cases hb1; exact le_refl _⟩

/-- Invariant of the split loop: a successful run ends with a candidate at
most as costly as the incoming best and as every chosen variant of the
processed splits. -/
theorem processSubsetGo_min (cost : PTree → Nat) (od : OptDict) (jtd : ExprDict)
    (clist : List String) (rest : List String) :
    ∀ (b : Option PTree) (best : PTree),
      processSubsetGo cost od jtd clist rest b = .ok (some best) →
      (∀ b0, b = some b0 → cost best ≤ cost b0) ∧
        ∀ rel ∈ rest, ∀ bn nl,
          splitCandidates od jtd clist rel = some (bn, nl) →
          cost best ≤ cost (if cost bn < cost nl then bn else nl) := by
  induction rest with
  | nil =>
    intro b best h
    injection h with h'
    constructor
    · intro b0 hb0
      rw [hb0] at h'
      injection h' with h''
      rw [h'']
    · intro rel hmem
      cases hmem
  | cons rel rest ih =>
    intro b best h
    unfold processSubsetGo at h
    cases hsc : splitCandidates od jtd clist rel with
    | none => rw [hsc] at h; cases h
    | some pr =>
      obtain ⟨bn, nl⟩ := pr
      rw [hsc] at h
      have hrec := ih (updateBest cost bn nl b) best h
      obtain ⟨r, hr⟩ := updateBest_isSome cost bn nl b
      have hle := updateBest_le cost bn nl b r hr
      constructor
      · intro b0 hb0
        exact le_trans (hrec.1 r hr) (hle.2 b0 hb0)
      · intro rel2 hmem bn2 nl2 hsc2
        rcases List.mem_cons.mp hmem with heq | hmem2
        · subst heq
          rw [hsc] at hsc2
          injection hsc2 with hpr
          injection hpr with h1 h2
          subst h1
          subst h2
          exact le_trans (hrec.1 r hr) hle.1
        · exact hrec.2 rel2 hmem2 bn2 nl2 hsc2

/-- Kind predicate preserved by `removeUnaryPlanAux`: the loop body never
appends to `selectList` when the arena contains no `Select` node. -/
theorem removeUnaryPlanAux_no_select (fuel : Nat) :
    ∀ (nodes : List Op) (root : Nat) (q : List (Nat × Option Nat × String))
      (sl : List String) (fd : FieldDict) (nodes' : List Op) (root' : Nat)
      (sl' : List String) (fd' : FieldDict),
      (∀ op ∈ nodes, op.isSelect = false) →
      removeUnaryPlanAux fuel nodes root q sl fd = .ok (nodes', root', sl', fd') →
      sl' = sl := by
  induction fuel with
  | zero =>
    intro nodes root q sl fd nodes' root' sl' fd' hns heq
    cases heq
  | succ n ih =>
    intro nodes root q sl fd nodes' root' sl' fd' hns heq
    cases q with
    | nil =>
      injection heq with h'
      injection h' with h1 h'
      injection h' with h2 h'
      injection h' with h3 h4
      exact h3.symm
    | cons t rest =>
      obtain ⟨curr, pNode, sub⟩ := t
      unfold removeUnaryPlanAux at heq
      cases hnode : nodes[curr]? with
      | none => rw [hnode] at heq; cases heq
      | some op =>
        rw [hnode] at heq
        have hop : op.isSelect = false := hns op (List.getElem?_mem hnode)
        cases op with
        | select sp e => simp [Op.isSelect] at hop
        | project sp => exact ih _ _ _ _ _ _ _ _ _ hns heq
        | tableScan r fields => exact ih _ _ _ _ _ _ _ _ _ hns heq
        | groupBy sp => exact ih _ _ _ _ _ _ _ _ _ hns heq
        | sort sp => exact ih _ _ _ _ _ _ _ _ _ hns heq
        | join l r je m => exact ih _ _ _ _ _ _ _ _ _ hns heq
        | union l r => exact ih _ _ _ _ _ _ _ _ _ hns heq

/-- Claim C1: for every plan with a non-empty relation set, `pickJoinOrder`
returns the memoized best sub-plan `optDict[relations]`; for a plan with one
base relation and one filter it returns exactly `Select(TableScan(r))`.  On
the code this fails twice over.  At the claimed one-filter input, pass 1
finds predicates under `("R",)` and line 243 calls `combineSelects` without
`self.`, raising `NameError` before any memo entry is built.  At a
filterless single-relation input pass 1 does build the memo entry, but the
function has no `return` statement, so the caller receives `None` instead of
the memoized scan. -/
theorem C1_pickJoinOrder_returns_none :
    pickJoinOrder eaD schemaD costZero planD =
      .error "NameError: name 'combineSelects' is not defined" ∧
    pickJoinOrder eaId schemaD costZero planC10 = .ok none ∧
    pickJoinOrderDict eaId schemaD costZero planC10 =
      .ok [(["R"], some (.tableScan "R" ["a", "b"]))] :=
  ⟨rfl, rfl, rfl⟩

/-- Claim C2, counterexample: on a two-relation plan whose join expression
has two conjuncts and whose root `Select` also spans both relations, the
join expression the code hands to the candidate (built from
`joinTablesDict` alone) repeats the full undecomposed join expression once
per conjunct, while the conjunction of atomic predicates the claim describes
(select and join conjuncts, one instance each) is a different string. -/
theorem C2_counterexample :
    obtainFieldDict planC2 = .ok fdC2 ∧
    getExprDicts eaC2 planC2 fdC2 = .ok (jtdC2, stdC2) ∧
    createExpression ["A"] ["B"] jtdC2 =
      "a1 == b1 and a2 == b1 and a1 == b1 and a2 == b1" ∧
    claimedCandidateExpr eaC2 planC2 fdC2 ["A"] ["B"] =
      .ok "a1 == b1 and a1 == b1 and a2 == b1" ∧
    ("a1 == b1 and a2 == b1 and a1 == b1 and a2 == b1" : String) ≠
      "a1 == b1 and a1 == b1 and a2 == b1" :=
  ⟨rfl, rfl, rfl, rfl, by decide⟩

/-- Claim C2 as amended: the candidate join expression is the rendered
conjunction of exactly the entries of the dictionary handed to
`createExpression` (in `pickJoinOrder` always `joinTablesDict`, which files
the originating `Join` node's full expression once per CNF conjunct;
`selectTablesDict` is not consulted) under the keys formed by pairing every
non-empty sub-combination of `S \ {rel}` with every non-empty
sub-combination of `{rel}`, with `"True"` when no entry is found.  The
second conjunct records the dictionary contents for the `planC2` fixture. -/
theorem C2_amended_join_dict_only :
    (∀ (exprDict : ExprDict) (lList : List String) (rel : String),
        createExpression lList [rel] exprDict =
          renderConj (flatMapEntries (specNewlyCoveredKeys lList [rel]) exprDict)) ∧
    getExprDicts eaC2 planC2 fdC2 = .ok (jtdC2, stdC2) := by
  refine ⟨?_, rfl⟩
  intro exprDict lList rel
  rw [createExpression_renderConj, masterlistOf_singleton, ← specNewlyCoveredKeys_singleton]

/-- Claim C3: an atomic predicate whose relation-set attribution has size
exactly one is re-inserted at the recorded attach point above that
relation's scan.  On the code this fails: the test is `len(attrList) == 1`,
an attribute count.  Here `a < b` spans two attributes of the single
relation `T` (its relation set, per `attrSources`, is `["T"]`), yet the new
`Select` (node 3) is attached above the plan root (the grouping, node 0),
not at the recorded attach point above the scan. -/
theorem C3_single_relation_predicate_left_at_root :
    attrSources eaC3 fdC3 "a < b" = .ok ["T"] ∧
    pushdownOperators eaC3 planC3 = .ok planC3after ∧
    planC3after.root = 3 ∧
    planC3after.nodes[3]? = some (.select 0 "a < b") ∧
    planC3after.nodes[0]? = some (.groupBy 2) :=
  ⟨rfl, rfl, rfl, rfl, rfl⟩

/-- Claim C4: every removed `Select`'s predicate is decomposed and each
conjunct appears in the output.  On the code this fails: the `return` sits
inside the loop, so with two collected `Select` predicates only the first
one's conjuncts are returned; the second predicate's conjunct `c > 0` is
absent, even though `decomposeCNF` would have produced it. -/
theorem C4_decompSelects_first_select_only :
    decompSelects eaC4 ["a > 0 and b > 0", "c > 0"] = some ["a > 0", "b > 0"] ∧
    eaC4.decomposeCNF "c > 0" = ["c > 0"] ∧
    ("c > 0" : String) ∉ ["a > 0", "b > 0"] :=
  ⟨rfl, rfl, by decide⟩

/-- Claim C5: the plan returned by `removeUnaryPlan` contains no `Select`
nodes.  On the code this fails for two consecutive `Select` nodes: the child
of a removed `Select` is pushed with the removed node itself as parent, so
the splice of the inner `Select` updates the already-detached outer node and
the inner `Select` (node 1) remains — here as the returned plan's root. -/
theorem C5_select_chain_survives :
    removeUnaryPlan planC5 =
      .ok (planC5after, ["p", "q"], [("a", (some 1, "only"))]) ∧
    planC5after.nodes[planC5after.root]? = some (.select 2 "q") :=
  ⟨rfl, rfl⟩

/-- Claim C6: `removeUnaryPlan` records an attach point for every base
relation's scan, including scans below a `Project`.  On the code this fails:
the `Project` branch `continue`s without pushing its child, so the scan of
`R` below the `Project` is never visited and the returned attach-point
dictionary is empty although the scan is in the plan. -/
theorem C6_scan_below_project_unrecorded :
    removeUnaryPlan planC6 = .ok (planC6, [], []) ∧
    Op.tableScan "R" ["a"] ∈ planC6.nodes :=
  ⟨rfl, by decide⟩

/-- Claim C7, counterexample: handing `pickJoinOrder` a plan whose relation
set is empty is claimed to be a fatal error reported to the caller; the code
performs no such check — the pass loop body never runs and the function
falls through, returning `None` (a silent non-error result). -/
theorem C7_counterexample :
    pickJoinOrder eaId schemaD costZero planC7 = .ok none ∧
    ∀ err, pickJoinOrder eaId schemaD costZero planC7 ≠ .error err :=
  ⟨rfl, fun _ h =>
    Except.noConfusion
      (h.symm.trans (rfl : pickJoinOrder eaId schemaD costZero planC7 = .ok none))⟩

/-- Claim C7 as amended: when the pre-traversals succeed and the relation
set is empty, `pickJoinOrder` silently returns `None`: the dynamic-program
loop iterates over `range(1, 1)` and the function has no return statement. -/
theorem C7_empty_relations_silent_none (ea : ExprAnalysis)
    (schema : String → List String) (cost : PTree → Nat) (p : Plan)
    (fd : AttrDict) (ds : ExprDict × ExprDict)
    (h1 : obtainFieldDict p = .ok fd) (h2 : getExprDicts ea p fd = .ok ds)
    (h3 : p.relations = []) :
    pickJoinOrder ea schema cost p = .ok none := by
  obtain ⟨jtd, std⟩ := ds
  unfold pickJoinOrder pickJoinOrderDict
  rw [h1]
  dsimp only
  rw [h2]
  dsimp only
  rw [h3]
  rfl

/-- Witness instantiating `C7_empty_relations_silent_none` on a concrete
plan carrying an empty relation set. -/
theorem C7_empty_relations_silent_none_witness :
    pickJoinOrder eaId schemaD costZero planC7 = .ok none :=
  C7_empty_relations_silent_none eaId schemaD costZero planC7 fdC7 ([], [])
    rfl rfl rfl

/-- Claim C8: a candidate join split whose covered-predicate set is empty
gets the literal join expression `"True"` (a cross product), and candidate
construction does not fail: `createExpression` is total and falls back to
the constant when no `masterlist` key has entries in the dictionary. -/
theorem C8_cross_product_fallback (lList rList : List String)
    (exprDict : ExprDict)
    (h : flatMapEntries (masterlistOf lList rList) exprDict = []) :
    createExpression lList rList exprDict = "True" := by
  rw [createExpression_renderConj, h]
  rfl

/-- Witness instantiating `C8_cross_product_fallback` on a concrete split
with an empty predicate dictionary. -/
theorem C8_cross_product_fallback_witness :
    flatMapEntries (masterlistOf ["A"] ["B"]) [] = [] ∧
    createExpression ["A"] ["B"] [] = "True" :=
  ⟨rfl, C8_cross_product_fallback ["A"] ["B"] [] rfl⟩

/-- Claim C9: for every subset and split, the retained method variant costs
at most the variant not chosen (the chosen one is the cheaper of the
block-nested-loops and nested-loops candidates), and the sub-plan stored in
`optDict[S]` (the result of `processSubset`) costs at most every chosen
candidate over all splits of `S`. -/
theorem C9_monotonic_cost_selection (cost : PTree → Nat) (optDict : OptDict)
    (joinTablesDict : ExprDict) (clist : List String) (best : PTree)
    (h : processSubset cost optDict joinTablesDict clist = .ok (some best)) :
    ∀ rel ∈ clist, ∀ joinBnlj joinNlj,
      splitCandidates optDict joinTablesDict clist rel = some (joinBnlj, joinNlj) →
      (cost (if cost joinBnlj < cost joinNlj then joinBnlj else joinNlj) ≤
          cost joinBnlj ∧
        cost (if cost joinBnlj < cost joinNlj then joinBnlj else joinNlj) ≤
          cost joinNlj) ∧
      cost best ≤ cost (if cost joinBnlj < cost joinNlj then joinBnlj else joinNlj) := by
  intro rel hmem joinBnlj joinNlj hsc
  refine ⟨⟨by split <;> omega, by split <;> omega⟩, ?_⟩
  exact (processSubsetGo_min cost optDict joinTablesDict clist clist none best h).2
    rel hmem joinBnlj joinNlj hsc

/-- Witness instantiating `C9_monotonic_cost_selection` on a concrete memo,
subset and cost oracle. -/
theorem C9_monotonic_cost_selection_witness :
    (costW (if costW jW_bnlj < costW jW_nlj then jW_bnlj else jW_nlj) ≤
        costW jW_bnlj ∧
      costW (if costW jW_bnlj < costW jW_nlj then jW_bnlj else jW_nlj) ≤
        costW jW_nlj) ∧
    costW jW_bnlj ≤ costW (if costW jW_bnlj < costW jW_nlj then jW_bnlj else jW_nlj) :=
  C9_monotonic_cost_selection costW odW [] ["A", "B"] jW_bnlj rfl "A" (by decide)
    jW_bnlj jW_nlj rfl

/-- Claim C10: on a plan containing no `Select` node, `pushdownOperators`
raises instead of returning the plan: `removeUnaryPlan` collects an empty
select list, `decompSelects` falls through returning `None`, and the
`for s in decompList` loop raises `TypeError`. -/
theorem C10_pushdown_raises_without_selects (ea : ExprAnalysis) (p : Plan)
    (pl : Plan) (sl : List String) (fd : FieldDict)
    (hns : ∀ op ∈ p.nodes, op.isSelect = false)
    (hok : removeUnaryPlan p = .ok (pl, sl, fd)) :
    pushdownOperators ea p = .error "TypeError: NoneType object is not iterable" := by
  have hsl : sl = [] := by
    unfold removeUnaryPlan at hok
    cases haux : removeUnaryPlanAux (p.nodes.length + 1) p.nodes p.root
        [(p.root, none, "")] [] [] with
    | error e => rw [haux] at hok; cases hok
    | ok res =>
      obtain ⟨n2, r2, sl2, fd2⟩ := res
      rw [haux] at hok
      have h2 : sl2 = [] :=
        removeUnaryPlanAux_no_select _ _ _ _ _ _ _ _ _ _ hns haux
      injection hok with h3
      injection h3 with h4 h5
      injection h5 with h6 h7
      rw [← h6]
      exact h2
  unfold pushdownOperators
  rw [hok, hsl]
  rfl

/-- Witness instantiating `C10_pushdown_raises_without_selects` on a plan
that is a bare scan. -/
theorem C10_pushdown_raises_without_selects_witness :
    pushdownOperators eaId planC10 = .error "TypeError: NoneType object is not iterable" :=
  C10_pushdown_raises_without_selects eaId planC10 planC10 [] [("a", (none, ""))]
    (by decide) rfl

end Optimizer
